import Mathlib

/-!
Verification of `scripts/update-article-link-map.py`.

The script fetches a JSON mapping, transforms it into TypeScript map
entries (`generate_article_link_map`), and splices them into a config
file by regex substitution (`update_zendesk_config`).

Python strings are modelled as lists of characters (`Str`); a Python
`dict` keyed by strings is modelled as an association list kept in
insertion order, with in-place overwrite on key collision (`dictInsert`),
which is exactly the observable behaviour of a CPython `dict` and its
`.items()` iteration order.

The two regular expressions of the script have the shape
`LITERAL₁(.*?)LITERAL₂` with `re.DOTALL`, and are applied with
`pattern.sub`, which rewrites every non-overlapping match, scanning left
to right, the lazy group taking the nearest following occurrence of
`LITERAL₂`.  For such patterns `pattern.sub` is equivalent to: find the
first occurrence of `LITERAL₁`; find the first occurrence of `LITERAL₂`
after it; if both exist replace the span and continue after it,
otherwise change nothing.  (An occurrence of `LITERAL₁` with no
`LITERAL₂` after it admits no later match either, because a closing
occurrence for any later opening occurrence would also close the earlier
one.)  `reSub` below implements exactly that; it uses fuel so that every
definition stays structurally recursive and computable by the kernel.
-/

set_option maxRecDepth 100000

namespace Zendesk

/-- Python strings as lists of characters (code points). -/
abbrev Str := List Char

/-- Coerce a Lean string literal to the model type. -/
def str (s : String) : Str := s.data

/-- `hasPref p s` is true when `p` is a prefix of `s` (Python `s.startswith(p)`). -/
def hasPref : Str → Str → Bool
  | [], _ => true
  | _ :: _, [] => false
  | p :: ps, c :: cs => p == c && hasPref ps cs

/-- Scan for the first occurrence of the nonempty pattern `p0 :: pr`;
return the text before the occurrence and the text after it. -/
def splitFirstAux (p0 : Char) (pr : Str) : Str → Option (Str × Str)
  | [] => none
  | ch :: rest =>
      if hasPref (p0 :: pr) (ch :: rest) then some ([], rest.drop pr.length)
      else
        match splitFirstAux p0 pr rest with
        | some (b, a) => some (ch :: b, a)
        | none => none

/-- First occurrence of `pat` in `s` as `(before, after)` with
`s = before ++ pat ++ after`; `none` if `pat` is empty or absent. -/
def splitFirst : Str → Str → Option (Str × Str)
  | [], _ => none
  | p0 :: pr, s => splitFirstAux p0 pr s

/-- Fueled body of `removeAll`. -/
def removeAllF (pat : Str) : Nat → Str → Str
  | 0, s => s
  | Nat.succ n, s =>
      match splitFirst pat s with
      | none => s
      | some (b, a) => b ++ removeAllF pat n a

/-- Python `s.replace(pat, "")`: delete every non-overlapping occurrence
of `pat`, scanning left to right. -/
def removeAll (pat s : Str) : Str := removeAllF pat (s.length + 1) s

/-- The stripped filename suffix. -/
def mdx : Str := str ".mdx"

/-- Line 98: `clean_path = file_path.replace(".mdx", "")`. -/
def clean_path (file_path : Str) : Str := removeAll mdx file_path

/-- Line 99: the rendered target path `f"/{clean_path}"`. -/
def renderPath (file_path : Str) : Str := str "/" ++ clean_path file_path

/-- CPython dict assignment `d[k] = v` on an insertion-ordered
association list: overwrite in place if `k` is present, else append. -/
def dictInsert (m : List (Str × Str)) (k v : Str) : List (Str × Str) :=
  if m.any (fun e => e.1 == k) then
    m.map (fun e => if e.1 == k then (k, v) else e)
  else m ++ [(k, v)]

/-- Lines 96-99: build `article_map`, keyed by article id, valued by the
rendered path, iterating over `files.items()` in insertion order. -/
def article_map (files : List (Str × Str)) : List (Str × Str) :=
  files.foldl (fun m e => dictInsert m e.2 (renderPath e.1)) []

/-- Code-point lexicographic `≤` on strings, as Python string comparison. -/
def lexLe : Str → Str → Bool
  | [], _ => true
  | _ :: _, [] => false
  | a :: as, b :: bs =>
      if a.toNat < b.toNat then true
      else if b.toNat < a.toNat then false
      else lexLe as bs

/-- Insert an entry into a list sorted by key, before the first key that
is not smaller (so equal keys keep the inserted entry first: stable). -/
def insLe (e : Str × Str) : List (Str × Str) → List (Str × Str)
  | [] => [e]
  | f :: rest => if lexLe e.1 f.1 then e :: f :: rest else f :: insLe e rest

/-- Stable insertion sort by key; Python `sorted(..., key=lambda x: x[0])`
is a stable sort under the same code-point order, and over the
duplicate-free keys of a dict both produce the same list. -/
def sortEntries : List (Str × Str) → List (Str × Str)
  | [] => []
  | e :: rest => insLe e (sortEntries rest)

/-- Line 102: `sorted_items = sorted(article_map.items(), key=lambda x: x[0])`. -/
def sorted_items (files : List (Str × Str)) : List (Str × Str) :=
  sortEntries (article_map files)

/-- Line 107: one rendered entry `  '<id>': '<path>'`. -/
def entryLine (article_id path : Str) : Str :=
  str "  '" ++ article_id ++ str "': '" ++ path ++ str "'"

/-- Line 109: `",\n".join(entries)`. -/
def joinComma : List Str → Str
  | [] => []
  | [e] => e
  | e :: rest => e ++ str ",\n" ++ joinComma rest

/-- Lines 90-109, `generate_article_link_map(mapping_data)`. The input
models `mapping_data.get("files", {})`: `none` when the top-level
`files` key is absent, otherwise the list of `path -> id` pairs in
insertion order. -/
def generate_article_link_map (mapping_data : Option (List (Str × Str))) : Str :=
  let files := mapping_data.getD []
  joinComma ((sorted_items files).map (fun e => entryLine e.1 e.2))

/-- Opening token sequence of both regex patterns (group 1). -/
def OPEN : Str := str "export const ARTICLE_LINK_MAP: Record<string, string> = \x7b"

/-- Strict closing token sequence `\x7d as const;` (group 3 of pattern 1). -/
def CLOSE1 : Str := str "\x7d as const;"

/-- Loose closing token sequence `\x7d;` (group 3 of pattern 2). -/
def CLOSE2 : Str := str "\x7d;"

/-- A single newline. -/
def nl : Str := str "\n"

/-- The replacement text both substitutions produce:
`f"{OPEN}\n{new_map_entries}\n\x7d as const;"` — note that the second,
loose-pattern lambda also emits the strict terminator. -/
def repBlock (new_map_entries : Str) : Str :=
  OPEN ++ nl ++ new_map_entries ++ nl ++ CLOSE1

/-- Fueled body of `reSub`. -/
def reSubF (op cl rep : Str) : Nat → Str → Str
  | 0, s => s
  | Nat.succ n, s =>
      match splitFirst op s with
      | none => s
      | some (b, r) =>
          match splitFirst cl r with
          | some (_, post) => b ++ rep ++ reSubF op cl rep n post
          | none => s

/-- Python `re.sub` for the pattern `op(.*?)cl` (DOTALL) with constant
replacement `rep`: rewrite every non-overlapping match left to right. -/
def reSub (op cl rep s : Str) : Str := reSubF op cl rep (s.length + 1) s

/-- Whether the pattern `op(.*?)cl` matches anywhere in `s`: the first
occurrence of `op` must be followed by an occurrence of `cl`. -/
def hasMatch (op cl : Str) (s : Str) : Bool :=
  match splitFirst op s with
  | none => false
  | some (_, r) => (splitFirst cl r).isSome

/-- Fueled body of `countMatches`. -/
def countMatchesF (op cl : Str) : Nat → Str → Nat
  | 0, _ => 0
  | Nat.succ n, s =>
      match splitFirst op s with
      | none => 0
      | some (_, r) =>
          match splitFirst cl r with
          | some (_, post) => 1 + countMatchesF op cl n post
          | none => 0

/-- Number of (non-overlapping) matches of `op(.*?)cl` that `re.sub`
would rewrite in `s`. -/
def countMatches (op cl s : Str) : Nat := countMatchesF op cl (s.length + 1) s

/-- The `ValueError` message of line 140. -/
def errMsg : Str := str "Could not find ARTICLE_LINK_MAP in config file"

/-- Lines 112-142, `update_zendesk_config`: the pure patch
`content × new_map_entries → updated content`, with `Except.error`
modelling the raised `ValueError`.  The write of line 142 happens only
in the `ok` case (see `applyPatch`). -/
def update_zendesk_config (content new_map_entries : Str) : Except Str Str :=
  let new_content := reSub OPEN CLOSE1 (repBlock new_map_entries) content
  if new_content = content then
    let new_content2 := reSub OPEN CLOSE2 (repBlock new_map_entries) content
    if new_content2 = content then Except.error errMsg
    else Except.ok new_content2
  else Except.ok new_content

/-- The destination file's content after calling `update_zendesk_config`
on it: unchanged when the call raises, rewritten when it returns. -/
def applyPatch (content new_map_entries : Str) : Str :=
  match update_zendesk_config content new_map_entries with
  | Except.ok c => c
  | Except.error _ => content

/-- Outcome of `fetch_file_with_sparse_checkout` as observed by `main`:
either the parsed document (its `files` key, as for
`generate_article_link_map`), or one of the three caught exceptions. -/
inductive FetchOutcome where
  | fetched (mapping_data : Option (List (Str × Str)))
  | processError
  | fileNotFound
  | jsonDecodeError

/-- Whether the fetch stage failed. -/
def fetchFailed : FetchOutcome → Bool
  | FetchOutcome.fetched _ => false
  | _ => true

/-- Whether an `Except` is a success. -/
def exceptIsOk : Except Str Str → Bool
  | Except.ok _ => true
  | Except.error _ => false

/-- Lines 145-176, `main`: given the fetch outcome and the destination
file's content, return the process exit code and the destination file's
final content.  Every failure path exits 1 without touching the file;
the only write is the successful `update_zendesk_config`. -/
def mainRun (f : FetchOutcome) (dest : Str) : Nat × Str :=
  match f with
  | FetchOutcome.fetched d =>
      match update_zendesk_config dest (generate_article_link_map d) with
      | Except.ok c => (0, c)
      | Except.error _ => (1, dest)
  | _ => (1, dest)

/-! ### String-machinery lemmas -/

theorem hasPref_extend : ∀ (p u v : Str), hasPref p u = true → hasPref p (u ++ v) = true
  | [], _, _, _ => rfl
  | _ :: _, [], _, h => by simp [hasPref] at h
  | p :: ps, c :: cs, v, h => by
      simp only [hasPref, Bool.and_eq_true] at h
      simpa [hasPref, h.1] using hasPref_extend ps cs v h.2

theorem hasPref_decomp : ∀ (p u : Str), hasPref p u = true → u = p ++ u.drop p.length
  | [], u, _ => by simp
  | _ :: _, [], h => by simp [hasPref] at h
  | p :: ps, c :: cs, h => by
      simp only [hasPref, Bool.and_eq_true, beq_iff_eq] at h
      have ih := hasPref_decomp ps cs h.2
      simp only [List.length_cons, List.drop_succ_cons, List.cons_append, h.1]
      exact congrArg (c :: ·) ih

theorem splitFirstAux_append :
    ∀ (p0 : Char) (pr s b a : Str), splitFirstAux p0 pr s = some (b, a) →
      s = b ++ (p0 :: pr) ++ a := by
  intro p0 pr s
  induction s with
  | nil => intro b a h; simp [splitFirstAux] at h
  | cons ch rest ih =>
    intro b a h
    simp only [splitFirstAux] at h
    split at h
    · rename_i hp
      rw [Option.some.injEq, Prod.mk.injEq] at h
      obtain ⟨rfl, rfl⟩ := h
      have := hasPref_decomp (p0 :: pr) (ch :: rest) hp
      simpa using this
    · split at h
      · rename_i b' a' heq
        rw [Option.some.injEq, Prod.mk.injEq] at h
        obtain ⟨rfl, rfl⟩ := h
        have := ih b' a' heq
        simp [this]
      · exact absurd h (by simp)

theorem splitFirst_append {pat s b a : Str} (h : splitFirst pat s = some (b, a)) :
    s = b ++ pat ++ a := by
  match pat with
  | [] => simp [splitFirst] at h
  | p0 :: pr => exact splitFirstAux_append p0 pr s b a h

theorem splitFirstAux_first :
    ∀ (p0 : Char) (pr s b a : Str), splitFirstAux p0 pr s = some (b, a) →
      splitFirstAux p0 pr b = none := by
  intro p0 pr s
  induction s with
  | nil => intro b a h; simp [splitFirstAux] at h
  | cons ch rest ih =>
    intro b a h
    simp only [splitFirstAux] at h
    split at h
    · rw [Option.some.injEq, Prod.mk.injEq] at h
      obtain ⟨rfl, rfl⟩ := h
      rfl
    · rename_i hp
      split at h
      · rename_i b' a' heq
        rw [Option.some.injEq, Prod.mk.injEq] at h
        obtain ⟨rfl, rfl⟩ := h
        have hrest := splitFirstAux_append p0 pr rest b' a' heq
        have hcond : hasPref (p0 :: pr) (ch :: b') = false := by
          by_contra hc
          have hc' : hasPref (p0 :: pr) (ch :: b') = true := by
            cases hh : hasPref (p0 :: pr) (ch :: b') with
            | true => rfl
            | false => exact absurd hh hc
          have hext := hasPref_extend (p0 :: pr) (ch :: b') ((p0 :: pr) ++ a') hc'
          rw [show (ch :: b') ++ ((p0 :: pr) ++ a') = ch :: rest by simp [hrest]] at hext
          rw [hext] at hp
          exact hp rfl
        simp [splitFirstAux, hcond, ih b' a' heq]
      · exact absurd h (by simp)

theorem splitFirst_first {pat s b a : Str} (h : splitFirst pat s = some (b, a)) :
    splitFirst pat b = none := by
  match pat with
  | [] => rfl
  | p0 :: pr => exact splitFirstAux_first p0 pr s b a h

theorem splitFirst_nil (pat : Str) : splitFirst pat [] = none := by
  cases pat <;> rfl

theorem splitFirst_ne_nil {pat s b a : Str} (h : splitFirst pat s = some (b, a)) : s ≠ [] := by
  intro hs
  rw [hs, splitFirst_nil] at h
  exact absurd h (by simp)

theorem removeAllF_nil (pat : Str) : ∀ n, removeAllF pat n [] = []
  | 0 => rfl
  | Nat.succ n => by simp [removeAllF, splitFirst_nil]

theorem removeAll_of_none {pat s : Str} (h : splitFirst pat s = none) : removeAll pat s = s := by
  simp [removeAll, removeAllF, h]

theorem removeAll_of_suffix {pat s b : Str} (h : splitFirst pat s = some (b, [])) :
    removeAll pat s = b := by
  simp [removeAll, removeAllF, h, removeAllF_nil]

theorem reSubF_no_match {op cl s : Str} (rep : Str) (h : hasMatch op cl s = false) :
    ∀ n, reSubF op cl rep n s = s
  | 0 => rfl
  | Nat.succ n => by
      cases h1 : splitFirst op s with
      | none => simp [reSubF, h1]
      | some br =>
        obtain ⟨b, r⟩ := br
        have h' : (splitFirst cl r).isSome = false := by
          simpa [hasMatch, h1] using h
        cases h2 : splitFirst cl r with
        | none => simp [reSubF, h1, h2]
        | some xp => rw [h2] at h'; simp at h'

theorem reSub_no_match {op cl s : Str} (rep : Str) (h : hasMatch op cl s = false) :
    reSub op cl rep s = s :=
  reSubF_no_match rep h _

theorem reSub_step {op cl s b r x post : Str} (rep : Str)
    (h1 : splitFirst op s = some (b, r)) (h2 : splitFirst cl r = some (x, post))
    (h3 : hasMatch op cl post = false) :
    reSub op cl rep s = b ++ rep ++ post := by
  simp [reSub, reSubF, h1, h2, reSubF_no_match rep h3]

theorem no_match_update {t g : Str} (h1 : hasMatch OPEN CLOSE1 t = false)
    (h2 : hasMatch OPEN CLOSE2 t = false) :
    update_zendesk_config t g = Except.error errMsg ∧ applyPatch t g = t := by
  have e1 : reSub OPEN CLOSE1 (repBlock g) t = t := reSub_no_match _ h1
  have e2 : reSub OPEN CLOSE2 (repBlock g) t = t := reSub_no_match _ h2
  have hu : update_zendesk_config t g = Except.error errMsg := by
    simp [update_zendesk_config, e1, e2]
  exact ⟨hu, by simp [applyPatch, hu]⟩

theorem countMatchesF_zero_iff {op cl s : Str} {n : Nat} (hn : 0 < n) :
    (countMatchesF op cl n s = 0 ↔ hasMatch op cl s = false) := by
  match n, hn with
  | Nat.succ n, _ =>
    cases h1 : splitFirst op s with
    | none => simp [countMatchesF, hasMatch, h1]
    | some br =>
      obtain ⟨b, r⟩ := br
      cases h2 : splitFirst cl r with
      | none => simp [countMatchesF, hasMatch, h1, h2]
      | some xp => obtain ⟨x, p⟩ := xp; simp [countMatchesF, hasMatch, h1, h2]

theorem countMatches_one {op cl s : Str} (h : countMatches op cl s = 1) :
    ∃ b r x post, splitFirst op s = some (b, r) ∧ splitFirst cl r = some (x, post) ∧
      hasMatch op cl post = false := by
  unfold countMatches at h
  cases h1 : splitFirst op s with
  | none => simp [countMatchesF, h1] at h
  | some br =>
    obtain ⟨b, r⟩ := br
    cases h2 : splitFirst cl r with
    | none => simp [countMatchesF, h1, h2] at h
    | some xp =>
      obtain ⟨x, post⟩ := xp
      have hlen : 0 < s.length := by
        cases s with
        | nil => exact absurd h1 (by simp [splitFirst_nil])
        | cons c cs => simp
      simp only [countMatchesF, h1, h2] at h
      have h0 : countMatchesF op cl s.length post = 0 := by omega
      exact ⟨b, r, x, post, rfl, h2, (countMatchesF_zero_iff hlen).mp h0⟩

theorem close_tail_ne : ∀ (x y : Str), x ++ CLOSE1 ≠ y ++ CLOSE2 := by
  intro x y h
  have h2 : CLOSE1.reverse ++ x.reverse = CLOSE2.reverse ++ y.reverse := by
    simpa [List.reverse_append] using congrArg List.reverse h
  have h3 : (CLOSE1.reverse ++ x.reverse)[1]? = (CLOSE2.reverse ++ y.reverse)[1]? := by
    rw [h2]
  rw [List.getElem?_append_left (by decide), List.getElem?_append_left (by decide)] at h3
  exact absurd h3 (by decide)

/-! ### Sorting lemmas -/

theorem lexLe_total : ∀ (a b : Str), lexLe a b = true ∨ lexLe b a = true
  | [], _ => Or.inl rfl
  | _ :: _, [] => Or.inr rfl
  | a :: as, b :: bs => by
      rcases Nat.lt_trichotomy a.toNat b.toNat with h | h | h
      · exact Or.inl (by simp [lexLe, h])
      · rcases lexLe_total as bs with hl | hl
        · exact Or.inl (by simp [lexLe, h, Nat.lt_irrefl, hl])
        · exact Or.inr (by simp [lexLe, h, Nat.lt_irrefl, hl])
      · exact Or.inr (by simp [lexLe, h])

theorem lexLe_trans : ∀ (a b c : Str), lexLe a b = true → lexLe b c = true → lexLe a c = true
  | [], _, _, _, _ => rfl
  | _ :: _, [], _, h, _ => by simp [lexLe] at h
  | _ :: _, _ :: _, [], _, h => by simp [lexLe] at h
  | a :: as, b :: bs, c :: cs, h1, h2 => by
      simp only [lexLe] at h1 h2 ⊢
      rcases Nat.lt_trichotomy a.toNat b.toNat with hab | hab | hab
      · rcases Nat.lt_trichotomy b.toNat c.toNat with hbc | hbc | hbc
        · simp [show a.toNat < c.toNat by omega]
        · simp [show a.toNat < c.toNat by omega]
        · simp [show ¬b.toNat < c.toNat by omega, hbc] at h2
      · rcases Nat.lt_trichotomy b.toNat c.toNat with hbc | hbc | hbc
        · simp [show a.toNat < c.toNat by omega]
        · simp [show ¬a.toNat < b.toNat by omega, show ¬b.toNat < a.toNat by omega] at h1
          simp [show ¬b.toNat < c.toNat by omega, show ¬c.toNat < b.toNat by omega] at h2
          simp [show ¬a.toNat < c.toNat by omega, show ¬c.toNat < a.toNat by omega]
          exact lexLe_trans as bs cs h1 h2
        · simp [show ¬b.toNat < c.toNat by omega, hbc] at h2
      · simp [show ¬a.toNat < b.toNat by omega, hab] at h1

theorem insLe_mem {x e : Str × Str} :
    ∀ {l : List (Str × Str)}, x ∈ insLe e l → x = e ∨ x ∈ l := by
  intro l
  induction l with
  | nil => intro h; simpa [insLe] using h
  | cons f rest ih =>
    intro h
    by_cases hef : lexLe e.1 f.1 = true
    · rw [show insLe e (f :: rest) = e :: f :: rest by simp [insLe, hef]] at h
      rcases List.mem_cons.mp h with rfl | h'
      · exact Or.inl rfl
      · exact Or.inr h'
    · rw [show insLe e (f :: rest) = f :: insLe e rest by simp [insLe, hef]] at h
      rcases List.mem_cons.mp h with rfl | h'
      · exact Or.inr (List.mem_cons_self _ _)
      · rcases ih h' with h'' | h''
        · exact Or.inl h''
        · exact Or.inr (List.mem_cons_of_mem _ h'')

theorem pairwise_insLe (e : Str × Str) :
    ∀ (l : List (Str × Str)), l.Pairwise (fun x y => lexLe x.1 y.1 = true) →
      (insLe e l).Pairwise (fun x y => lexLe x.1 y.1 = true) := by
  intro l
  induction l with
  | nil => intro _; simp [insLe]
  | cons f rest ih =>
    intro h
    rw [List.pairwise_cons] at h
    obtain ⟨hf, hrest⟩ := h
    by_cases hef : lexLe e.1 f.1 = true
    · simp only [insLe, hef, if_pos]
      rw [List.pairwise_cons]
      constructor
      · intro b hb
        rcases List.mem_cons.mp hb with rfl | hb'
        · exact hef
        · exact lexLe_trans _ _ _ hef (hf b hb')
      · rw [List.pairwise_cons]
        exact ⟨hf, hrest⟩
    · have hfe : lexLe f.1 e.1 = true := by
        rcases lexLe_total e.1 f.1 with h' | h'
        · exact absurd h' hef
        · exact h'
      simp only [insLe, hef, if_neg, Bool.false_eq_true, not_false_iff]
      rw [List.pairwise_cons]
      constructor
      · intro b hb
        rcases insLe_mem hb with rfl | hb'
        · exact hfe
        · exact hf b hb'
      · exact ih hrest

theorem pairwise_sortEntries :
    ∀ (l : List (Str × Str)), (sortEntries l).Pairwise (fun x y => lexLe x.1 y.1 = true)
  | [] => List.Pairwise.nil
  | e :: rest => pairwise_insLe e (sortEntries rest) (pairwise_sortEntries rest)

theorem insLe_perm (e : Str × Str) :
    ∀ (l : List (Str × Str)), (insLe e l).Perm (e :: l) := by
  intro l
  induction l with
  | nil => exact List.Perm.refl _
  | cons f rest ih =>
    by_cases hef : lexLe e.1 f.1 = true
    · simp only [insLe, hef, if_pos]
      exact List.Perm.refl _
    · simp only [insLe, hef, if_neg, Bool.false_eq_true, not_false_iff]
      exact (ih.cons f).trans (List.Perm.swap e f rest)

theorem sortEntries_perm : ∀ (l : List (Str × Str)), (sortEntries l).Perm l
  | [] => List.Perm.refl _
  | e :: rest => (insLe_perm e (sortEntries rest)).trans ((sortEntries_perm rest).cons e)

/-! ### Dictionary lemmas -/

theorem filter_dictInsert_eq {m : List (Str × Str)} {a v : Str}
    (hlen : (m.filter (fun e => e.1 == a)).length ≤ 1) :
    (dictInsert m a v).filter (fun e => e.1 == a) = [(a, v)] := by
  by_cases hany : m.any (fun e => e.1 == a) = true
  · simp only [dictInsert, hany, if_pos]
    rw [List.filter_map]
    have hcongr : ∀ x ∈ m,
        ((fun e => e.1 == a) ∘ fun e => if e.1 == a then (a, v) else e) x =
          (fun (e : Str × Str) => e.1 == a) x := by
      intro x _
      by_cases hx : x.1 == a
      · simp [Function.comp, hx]
      · simp [Function.comp, hx]
    rw [List.filter_congr hcongr]
    obtain ⟨x, hxm, hxa⟩ := List.any_eq_true.mp hany
    have hxf : x ∈ m.filter (fun e => e.1 == a) := List.mem_filter.mpr ⟨hxm, hxa⟩
    have hpos : 0 < (m.filter (fun e => e.1 == a)).length :=
      List.length_pos.mpr (List.ne_nil_of_mem hxf)
    have hone : (m.filter (fun e => e.1 == a)).length = 1 := by omega
    obtain ⟨w, hw⟩ := List.length_eq_one.mp hone
    have hwmem : w ∈ m.filter (fun e => e.1 == a) := by simp [hw]
    have hwa : w.1 = a := by simpa using (List.mem_filter.mp hwmem).2
    rw [hw]
    simp [hwa]
  · have hany' : m.any (fun e => e.1 == a) = false := by
      cases hh : m.any (fun e => e.1 == a) with
      | true => exact absurd hh hany
      | false => rfl
    simp only [dictInsert, hany', Bool.false_eq_true, if_neg, not_false_iff]
    rw [List.filter_append]
    have hnil : m.filter (fun e => e.1 == a) = [] := by
      rw [List.filter_eq_nil_iff]
      intro x hx
      exact (List.any_eq_false.mp hany') x hx
    simp [hnil]

theorem filter_dictInsert_ne {m : List (Str × Str)} {a k v : Str} (hka : k ≠ a) :
    (dictInsert m k v).filter (fun e => e.1 == a) = m.filter (fun e => e.1 == a) := by
  by_cases hany : m.any (fun e => e.1 == k) = true
  · simp only [dictInsert, hany, if_pos]
    rw [List.filter_map]
    have hcongr : ∀ x ∈ m,
        ((fun e => e.1 == a) ∘ fun e => if e.1 == k then (k, v) else e) x =
          (fun (e : Str × Str) => e.1 == a) x := by
      intro x _
      by_cases hx : x.1 == k
      · have hx' : x.1 = k := by simpa using hx
        simp [Function.comp, hx, hx']
      · simp [Function.comp, hx]
    rw [List.filter_congr hcongr]
    have hid : ∀ x ∈ m.filter (fun e => e.1 == a),
        (if x.1 == k then (k, v) else x) = x := by
      intro x hx
      have hxa : (x.1 == a) = true := (List.mem_filter.mp hx).2
      have hxa' : x.1 = a := by simpa using hxa
      have : (x.1 == k) = false := by
        rw [beq_eq_false_iff_ne, hxa']
        exact Ne.symm hka
      simp [this]
    calc (m.filter (fun e => e.1 == a)).map (fun e => if e.1 == k then (k, v) else e)
        = (m.filter (fun e => e.1 == a)).map id := List.map_congr_left hid
      _ = m.filter (fun e => e.1 == a) := List.map_id _
  · have hany' : m.any (fun e => e.1 == k) = false := by
      cases hh : m.any (fun e => e.1 == k) with
      | true => exact absurd hh hany
      | false => rfl
    simp only [dictInsert, hany', Bool.false_eq_true, if_neg, not_false_iff]
    rw [List.filter_append]
    have : (k == a) = false := by rw [beq_eq_false_iff_ne]; exact hka
    simp [this]

theorem filter_article_map_len (a : Str) :
    ∀ (l : List (Str × Str)) (m : List (Str × Str)),
      ((m.filter (fun e => e.1 == a)).length ≤ 1) →
      (((l.foldl (fun m e => dictInsert m e.2 (renderPath e.1)) m).filter
          (fun e => e.1 == a)).length ≤ 1) := by
  intro l
  induction l with
  | nil => intro m hm; simpa using hm
  | cons e rest ih =>
    intro m hm
    simp only [List.foldl_cons]
    apply ih
    by_cases hek : e.2 = a
    · rw [hek, filter_dictInsert_eq hm]
      simp
    · rw [filter_dictInsert_ne hek]
      exact hm

theorem article_map_filter_len (a : Str) (l : List (Str × Str)) :
    ((article_map l).filter (fun e => e.1 == a)).length ≤ 1 :=
  filter_article_map_len a l [] (by simp)

theorem filter_foldl_no_key (a : Str) :
    ∀ (l : List (Str × Str)) (m : List (Str × Str)), (∀ e ∈ l, e.2 ≠ a) →
      ((l.foldl (fun m e => dictInsert m e.2 (renderPath e.1)) m).filter
        (fun e => e.1 == a)) = m.filter (fun e => e.1 == a) := by
  intro l
  induction l with
  | nil => intro m _; rfl
  | cons e rest ih =>
    intro m hl
    simp only [List.foldl_cons]
    rw [ih _ (fun x hx => hl x (List.mem_cons_of_mem e hx))]
    exact filter_dictInsert_ne (hl e (List.mem_cons_self e rest))

theorem countMatches_zero_iff {op cl s : Str} :
    countMatches op cl s = 0 ↔ hasMatch op cl s = false :=
  countMatchesF_zero_iff (Nat.succ_pos _)

theorem splitFirst_mdx_cons_slash (X : Str) (h : splitFirst mdx X = none) :
    splitFirst mdx ('/' :: X) = none := by
  have hh : hasPref ('.' :: str "mdx") ('/' :: X) = false := by
    simp [hasPref, show (('.' : Char) == '/') = false from rfl]
  have h' : splitFirstAux '.' (str "mdx") X = none := h
  show splitFirstAux '.' (str "mdx") ('/' :: X) = none
  simp [splitFirstAux, hh, h']

/-! ### Claim theorems -/

/-- Claim C4: for every destination file text containing no region recognizable
under either matching strategy (neither the strict nor the loose closing token
pattern matches anywhere), the patch operation signals the ValueError
"Could not find ARTICLE_LINK_MAP in config file" and the destination file is
left byte-identical to its input: no write occurs on this failure path. -/
theorem c4_no_block_error (t g : Str)
    (h1 : hasMatch OPEN CLOSE1 t = false) (h2 : hasMatch OPEN CLOSE2 t = false) :
    update_zendesk_config t g = Except.error errMsg ∧ applyPatch t g = t :=
  no_match_update h1 h2

theorem c4_witness :
    update_zendesk_config (str "const unrelated = 1;") (str "  '1': '/a'") =
        Except.error errMsg ∧
      applyPatch (str "const unrelated = 1;") (str "  '1': '/a'") = str "const unrelated = 1;" :=
  c4_no_block_error (str "const unrelated = 1;") (str "  '1': '/a'") (by decide) (by decide)

/-- Claim C1 counterexample: a destination text in which two regions match the
recognized block markers (count of candidate matches under both accepted
marker pairs is 2, greater than one), yet the patch operation does not fail:
it succeeds and writes. -/
theorem c1_counterexample :
    countMatches OPEN CLOSE1
        (OPEN ++ str "\n  'a': '/a'\n" ++ CLOSE1 ++ str "\n\n" ++
          OPEN ++ str "\n  'b': '/b'\n" ++ CLOSE1) +
      countMatches OPEN CLOSE2
        (OPEN ++ str "\n  'a': '/a'\n" ++ CLOSE1 ++ str "\n\n" ++
          OPEN ++ str "\n  'b': '/b'\n" ++ CLOSE1) = 2 ∧
    exceptIsOk
      (update_zendesk_config
        (OPEN ++ str "\n  'a': '/a'\n" ++ CLOSE1 ++ str "\n\n" ++
          OPEN ++ str "\n  'b': '/b'\n" ++ CLOSE1)
        (str "  '1': '/new'")) = true :=
  ⟨rfl, rfl⟩

/-- Claim C1 (amended): when zero candidate regions match under either accepted
marker pair, the patch operation fails rather than writing.  When more than one
candidate region matches, failure is not guaranteed and matched regions are not
left unrewritten on success: the operation fails exactly when both pattern
substitutions leave the text unchanged — possible even with two matching
regions, when each replacement is identical to its match — and whenever the
strict-pattern substitution changes the text the operation succeeds and writes
that substitution, which rewrites every matched region.  Concretely, a text
with two strict-form blocks differing from the new block has both rewritten,
while a text of two already-patched identical blocks (two matching regions)
raises the ValueError. -/
theorem c1_amended_thm :
    (∀ (t g : Str), hasMatch OPEN CLOSE1 t = false → hasMatch OPEN CLOSE2 t = false →
        update_zendesk_config t g = Except.error errMsg ∧ applyPatch t g = t) ∧
      (∀ (t g : Str),
        (update_zendesk_config t g = Except.error errMsg ↔
          reSub OPEN CLOSE1 (repBlock g) t = t ∧ reSub OPEN CLOSE2 (repBlock g) t = t) ∧
        (reSub OPEN CLOSE1 (repBlock g) t ≠ t →
          update_zendesk_config t g = Except.ok (reSub OPEN CLOSE1 (repBlock g) t))) ∧
      (countMatches OPEN CLOSE1
          (OPEN ++ str "\n  'a': '/a'\n" ++ CLOSE1 ++ str "\n\n" ++
            OPEN ++ str "\n  'b': '/b'\n" ++ CLOSE1) +
        countMatches OPEN CLOSE2
          (OPEN ++ str "\n  'a': '/a'\n" ++ CLOSE1 ++ str "\n\n" ++
            OPEN ++ str "\n  'b': '/b'\n" ++ CLOSE1) = 2 ∧
        update_zendesk_config
          (OPEN ++ str "\n  'a': '/a'\n" ++ CLOSE1 ++ str "\n\n" ++
            OPEN ++ str "\n  'b': '/b'\n" ++ CLOSE1)
          (str "  '1': '/new'") =
        Except.ok
          (OPEN ++ nl ++ str "  '1': '/new'" ++ nl ++ CLOSE1 ++ str "\n\n" ++
            OPEN ++ nl ++ str "  '1': '/new'" ++ nl ++ CLOSE1)) ∧
      (countMatches OPEN CLOSE1
          ((OPEN ++ nl ++ str "  '1': '/new'" ++ nl ++ CLOSE1) ++
            (OPEN ++ nl ++ str "  '1': '/new'" ++ nl ++ CLOSE1)) +
        countMatches OPEN CLOSE2
          ((OPEN ++ nl ++ str "  '1': '/new'" ++ nl ++ CLOSE1) ++
            (OPEN ++ nl ++ str "  '1': '/new'" ++ nl ++ CLOSE1)) = 2 ∧
        update_zendesk_config
          ((OPEN ++ nl ++ str "  '1': '/new'" ++ nl ++ CLOSE1) ++
            (OPEN ++ nl ++ str "  '1': '/new'" ++ nl ++ CLOSE1))
          (str "  '1': '/new'") = Except.error errMsg) := by
  refine ⟨fun _ _ h1 h2 => no_match_update h1 h2, fun t g => ⟨?_, ?_⟩, ⟨rfl, rfl⟩, ⟨rfl, rfl⟩⟩
  · by_cases h1 : reSub OPEN CLOSE1 (repBlock g) t = t
    · by_cases h2 : reSub OPEN CLOSE2 (repBlock g) t = t
      · simp [update_zendesk_config, h1, h2]
      · simp [update_zendesk_config, h1, h2]
    · simp [update_zendesk_config, h1]
  · intro hch
    simp [update_zendesk_config, hch]

theorem c1_amended_witness :
    update_zendesk_config (str "no block present") (str "x") = Except.error errMsg ∧
      update_zendesk_config (OPEN ++ str "\nbody\n" ++ CLOSE1) (str "  '1': '/new'") =
        Except.ok (reSub OPEN CLOSE1 (repBlock (str "  '1': '/new'"))
          (OPEN ++ str "\nbody\n" ++ CLOSE1)) :=
  ⟨(c1_amended_thm.1 (str "no block present") (str "x") (by decide) (by decide)).1,
   (c1_amended_thm.2.1 (OPEN ++ str "\nbody\n" ++ CLOSE1) (str "  '1': '/new'")).2 (by decide)⟩

/-- Claim C2 counterexample: for the source pair ("/x.mdx", "9") the
transformer renders the target path "//x", which begins with two separator
characters, not exactly one. -/
theorem c2_counterexample :
    renderPath (str "/x.mdx") = str "//x" ∧
      (renderPath (str "/x.mdx"))[0]? = some '/' ∧
      (renderPath (str "/x.mdx"))[1]? = some '/' :=
  ⟨rfl, rfl, rfl⟩

/-- Claim C2 (amended): for every (path, identifier) pair whose path does not
start with the separator '/' and in which ".mdx" occurs at most once and only
as a terminal suffix, the rendered target path starts with exactly one leading
separator and never contains ".mdx" as a substring.  (Unrestricted, the claim
fails: a leading separator is doubled, and `replace` removes inner occurrences
of ".mdx" and can even splice a new one together.) -/
theorem c2_amended_thm (p : Str) (hHead : p[0]? ≠ some '/')
    (hSuf : splitFirst mdx p = none ∨ ∃ stem, splitFirst mdx p = some (stem, [])) :
    (renderPath p)[0]? = some '/' ∧ (renderPath p)[1]? ≠ some '/' ∧
      splitFirst mdx (renderPath p) = none := by
  have hr : renderPath p = '/' :: clean_path p := rfl
  rcases hSuf with hnone | ⟨stem, hsome⟩
  · have hc : clean_path p = p := removeAll_of_none hnone
    refine ⟨by simp [hr], ?_, ?_⟩
    · rw [hr, hc]
      simpa using hHead
    · rw [hr, hc]
      exact splitFirst_mdx_cons_slash p hnone
  · have hc : clean_path p = stem := removeAll_of_suffix hsome
    have hp : p = stem ++ mdx := by simpa using splitFirst_append hsome
    refine ⟨by simp [hr], ?_, ?_⟩
    · rw [hr, hc]
      cases stem with
      | nil => simp
      | cons c cs =>
        have : p[0]? = some c := by simp [hp]
        simp only [List.getElem?_cons_succ, List.getElem?_cons_zero]
        intro hcontr
        rw [hcontr] at this
        exact hHead this
    · rw [hr, hc]
      exact splitFirst_mdx_cons_slash stem (splitFirst_first hsome)

theorem c2_amended_witness :
    (renderPath (str "guide/setup.mdx"))[0]? = some '/' ∧
      (renderPath (str "guide/setup.mdx"))[1]? ≠ some '/' ∧
      splitFirst mdx (renderPath (str "guide/setup.mdx")) = none :=
  c2_amended_thm (str "guide/setup.mdx") (by decide)
    (Or.inr ⟨str "guide/setup", by decide⟩)

/-- Claim C3 concerns patch idempotence, which the spec guarantees and the
code does not deliver: re-running the patch with the same generated block on
an already-patched file produces a substitution identical to the input, which
the code misreads as "no match"; it then either raises the ValueError (when no
loose terminator occurs after the opening token) or falls back to the loose
pattern and rewrites up to the next `\x7d;`, deleting unrelated content.  This
theorem evaluates the code on the failing inputs: the first application
succeeds; the second application on its own output raises instead of being
idempotent; and with an unrelated `\x7d;` later in the file the second
application "succeeds" while erasing the text between the block and that
terminator. -/
theorem c3_bug_eval :
    update_zendesk_config (OPEN ++ str "\n  '9': '/old'\n" ++ CLOSE1) (str "  '1': '/new'") =
        Except.ok (OPEN ++ nl ++ str "  '1': '/new'" ++ nl ++ CLOSE1) ∧
      update_zendesk_config (OPEN ++ nl ++ str "  '1': '/new'" ++ nl ++ CLOSE1)
          (str "  '1': '/new'") =
        Except.error errMsg ∧
      update_zendesk_config
          (OPEN ++ nl ++ str "  '1': '/new'" ++ nl ++ CLOSE1 ++ str "\nconst x = \x7b\x7d;")
          (str "  '1': '/new'") =
        Except.ok (OPEN ++ nl ++ str "  '1': '/new'" ++ nl ++ CLOSE1) :=
  ⟨rfl, rfl, rfl⟩

/-- Claim C10: an input document lacking the top-level files key, or whose
files mapping is empty, does not make the transformer fail: it returns the
empty string, and a subsequent successful patch writes a block with no
entries. -/
theorem c10_empty_block :
    generate_article_link_map none = str "" ∧
      generate_article_link_map (some []) = str "" ∧
      update_zendesk_config (OPEN ++ str "\n  '9': '/old'\n" ++ CLOSE1)
          (generate_article_link_map none) =
        Except.ok (OPEN ++ nl ++ nl ++ CLOSE1) :=
  ⟨rfl, rfl, rfl⟩

/-- Claim C7: for every run in which the fetch stage fails (git failure,
missing file, malformed JSON) or the block-matching stage fails, `main` exits
with code 1 and the destination file's content is unchanged; the destination
is written only when both fetch and block matching succeed. -/
theorem c7_no_write_on_failure (f : FetchOutcome) (dest : Str)
    (h : fetchFailed f = true ∨
      ∃ d, f = FetchOutcome.fetched d ∧
        exceptIsOk (update_zendesk_config dest (generate_article_link_map d)) = false) :
    mainRun f dest = (1, dest) := by
  rcases h with h | ⟨d, rfl, hu⟩
  · cases f with
    | fetched d => simp [fetchFailed] at h
    | processError => rfl
    | fileNotFound => rfl
    | jsonDecodeError => rfl
  · simp only [mainRun]
    cases h' : update_zendesk_config dest (generate_article_link_map d) with
    | ok c => rw [h'] at hu; simp [exceptIsOk] at hu
    | error e => rfl

theorem c7_witness :
    mainRun FetchOutcome.jsonDecodeError (str "file content") = (1, str "file content") :=
  c7_no_write_on_failure FetchOutcome.jsonDecodeError (str "file content") (Or.inl rfl)

/-- Claim C5: when the files mapping contains two entries whose paths map to
the same article identifier (and the identifier does not recur after the later
of the two), the transformer's output contains exactly one entry for that
identifier, and its path is the transformed path of the later-encountered
entry — last-write-wins in encounter order, with no error raised (the
transformer is a total function). -/
theorem c5_last_write_wins (l1 l2 l3 : List (Str × Str)) (p1 p2 a : Str)
    (h3 : ∀ e ∈ l3, e.2 ≠ a) :
    (sorted_items (l1 ++ [(p1, a)] ++ l2 ++ [(p2, a)] ++ l3)).filter
      (fun e => e.1 == a) = [(a, renderPath p2)] := by
  have hbase : (article_map (l1 ++ [(p1, a)] ++ l2 ++ [(p2, a)] ++ l3)).filter
      (fun e => e.1 == a) = [(a, renderPath p2)] := by
    have hsplit : article_map (l1 ++ [(p1, a)] ++ l2 ++ [(p2, a)] ++ l3) =
        l3.foldl (fun m e => dictInsert m e.2 (renderPath e.1))
          (article_map (l1 ++ [(p1, a)] ++ l2 ++ [(p2, a)])) := by
      simp only [article_map]
      rw [List.foldl_append]
    rw [hsplit, filter_foldl_no_key a l3 _ h3]
    have hsplit2 : article_map (l1 ++ [(p1, a)] ++ l2 ++ [(p2, a)]) =
        dictInsert (article_map (l1 ++ [(p1, a)] ++ l2)) a (renderPath p2) := by
      simp only [article_map]
      rw [List.foldl_append]
      rfl
    rw [hsplit2]
    exact filter_dictInsert_eq (article_map_filter_len a _)
  have hperm := (sortEntries_perm
    (article_map (l1 ++ [(p1, a)] ++ l2 ++ [(p2, a)] ++ l3))).filter (fun e => e.1 == a)
  rw [hbase] at hperm
  exact List.perm_singleton.mp hperm

theorem c5_witness :
    (sorted_items [(str "a.mdx", str "7"), (str "b.mdx", str "7")]).filter
      (fun e => e.1 == str "7") = [(str "7", str "/b")] := by
  have h := c5_last_write_wins [] [] [] (str "a.mdx") (str "b.mdx") (str "7") (by simp)
  rw [show renderPath (str "b.mdx") = str "/b" from rfl] at h
  simpa using h

/-- Claim C6: for every input mapping the entries of the generated block are
ordered by ascending lexicographic (code-point) order of identifier, and on
the document with files = ("guide/setup.mdx" -> "1001",
"guide/faq.mdx" -> "1002") the block is exactly the entry for 1001 mapping to
/guide/setup followed by the entry for 1002 mapping to /guide/faq. -/
theorem c6_sorted_output :
    (∀ files : List (Str × Str),
        (sorted_items files).Pairwise (fun x y => lexLe x.1 y.1 = true)) ∧
      generate_article_link_map
          (some [(str "guide/setup.mdx", str "1001"), (str "guide/faq.mdx", str "1002")]) =
        str "  '1001': '/guide/setup',\n  '1002': '/guide/faq'" :=
  ⟨fun files => pairwise_sortEntries (article_map files), rfl⟩

/-- Claim C9: on a destination text where the strict terminator pattern does
not match anywhere but the looser terminator pattern matches (once), the patch
succeeds and the rewritten block is closed with the canonical strict
terminator `\x7d as const;`: the looser terminator is rewritten to the
canonical one. -/
theorem c9_normalizes_terminator (t g pre rest body post : Str)
    (h1 : hasMatch OPEN CLOSE1 t = false)
    (h2 : splitFirst OPEN t = some (pre, rest))
    (h3 : splitFirst CLOSE2 rest = some (body, post))
    (h4 : hasMatch OPEN CLOSE2 post = false) :
    update_zendesk_config t g =
      Except.ok (pre ++ OPEN ++ nl ++ g ++ nl ++ CLOSE1 ++ post) := by
  have e1 : reSub OPEN CLOSE1 (repBlock g) t = t := reSub_no_match _ h1
  have e2 : reSub OPEN CLOSE2 (repBlock g) t = pre ++ repBlock g ++ post :=
    reSub_step _ h2 h3 h4
  have hta : t = pre ++ OPEN ++ rest := splitFirst_append h2
  have htb : rest = body ++ CLOSE2 ++ post := splitFirst_append h3
  have hne : pre ++ (repBlock g ++ post) ≠ t := by
    intro hEq
    rw [hta, htb] at hEq
    have h6 : (pre ++ OPEN) ++ ((nl ++ g ++ nl ++ CLOSE1) ++ post) =
        (pre ++ OPEN) ++ ((body ++ CLOSE2) ++ post) := by
      calc (pre ++ OPEN) ++ ((nl ++ g ++ nl ++ CLOSE1) ++ post)
          = pre ++ (repBlock g ++ post) := by simp [repBlock, List.append_assoc]
        _ = pre ++ OPEN ++ (body ++ CLOSE2 ++ post) := hEq
        _ = (pre ++ OPEN) ++ ((body ++ CLOSE2) ++ post) := by
              simp [List.append_assoc]
    have h7 := List.append_cancel_left h6
    have h8 := List.append_cancel_right h7
    exact close_tail_ne (nl ++ g ++ nl) body h8
  have hstep : update_zendesk_config t g = Except.ok (pre ++ (repBlock g ++ post)) := by
    simp [update_zendesk_config, e1, e2, hne]
  rw [hstep]
  simp [repBlock, List.append_assoc]

theorem c9_witness :
    update_zendesk_config
        (OPEN ++ str "\n  '9': '/old'\n" ++ CLOSE2 ++ str "\ntail")
        (str "  '1': '/new'") =
      Except.ok
        (OPEN ++ nl ++ str "  '1': '/new'" ++ nl ++ CLOSE1 ++ str "\ntail") := by
  have h := c9_normalizes_terminator
    (OPEN ++ str "\n  '9': '/old'\n" ++ CLOSE2 ++ str "\ntail")
    (str "  '1': '/new'") [] (str "\n  '9': '/old'\n" ++ CLOSE2 ++ str "\ntail")
    (str "\n  '9': '/old'\n") (str "\ntail")
    (by decide) (by decide) (by decide) (by decide)
  simpa using h

/-- Claim C8: on a destination text containing exactly one recognizable
candidate region (counting matches of both accepted marker pairs), a
successful patch replaces exactly the span from the opening token through the
matched closing token with the opening token, a newline, the generated block,
a newline, and the strict closing token; every byte before and after the
matched region is preserved unchanged, and nothing of the region's previous
body remains. -/
theorem c8_frame (t g r : Str)
    (hcount : countMatches OPEN CLOSE1 t + countMatches OPEN CLOSE2 t = 1)
    (hok : update_zendesk_config t g = Except.ok r) :
    ∃ pre body close post, (close = CLOSE1 ∨ close = CLOSE2) ∧
      t = pre ++ OPEN ++ body ++ close ++ post ∧
      r = pre ++ OPEN ++ nl ++ g ++ nl ++ CLOSE1 ++ post := by
  have hcase : countMatches OPEN CLOSE1 t = 1 ∧ countMatches OPEN CLOSE2 t = 0 ∨
      countMatches OPEN CLOSE1 t = 0 ∧ countMatches OPEN CLOSE2 t = 1 := by omega
  rcases hcase with ⟨hc1, hc2⟩ | ⟨hc1, hc2⟩
  · obtain ⟨pre, rest, body, post, h1, h2, h3⟩ := countMatches_one hc1
    have e1 : reSub OPEN CLOSE1 (repBlock g) t = pre ++ repBlock g ++ post :=
      reSub_step _ h1 h2 h3
    have halt : hasMatch OPEN CLOSE2 t = false := countMatches_zero_iff.mp hc2
    have e2 : reSub OPEN CLOSE2 (repBlock g) t = t := reSub_no_match _ halt
    by_cases hn1 : pre ++ (repBlock g ++ post) = t
    · have herr : update_zendesk_config t g = Except.error errMsg := by
        simp [update_zendesk_config, e1, e2, hn1]
      rw [herr] at hok
      exact absurd hok (by simp)
    · have hokv : update_zendesk_config t g = Except.ok (pre ++ (repBlock g ++ post)) := by
        simp [update_zendesk_config, e1, hn1]
      rw [hokv] at hok
      have hr : pre ++ (repBlock g ++ post) = r := by simpa using hok
      refine ⟨pre, body, CLOSE1, post, Or.inl rfl, ?_, ?_⟩
      · have ha := splitFirst_append h1
        have hb := splitFirst_append h2
        rw [hb] at ha
        simpa [List.append_assoc] using ha
      · rw [← hr]
        simp [repBlock, List.append_assoc]
  · have hstrict : hasMatch OPEN CLOSE1 t = false := countMatches_zero_iff.mp hc1
    have e1 : reSub OPEN CLOSE1 (repBlock g) t = t := reSub_no_match _ hstrict
    obtain ⟨pre, rest, body, post, h1, h2, h3⟩ := countMatches_one hc2
    have e2 : reSub OPEN CLOSE2 (repBlock g) t = pre ++ repBlock g ++ post :=
      reSub_step _ h1 h2 h3
    by_cases hn2 : pre ++ (repBlock g ++ post) = t
    · have herr : update_zendesk_config t g = Except.error errMsg := by
        simp [update_zendesk_config, e1, e2, hn2]
      rw [herr] at hok
      exact absurd hok (by simp)
    · have hokv : update_zendesk_config t g = Except.ok (pre ++ (repBlock g ++ post)) := by
        simp [update_zendesk_config, e1, e2, hn2]
      rw [hokv] at hok
      have hr : pre ++ (repBlock g ++ post) = r := by simpa using hok
      refine ⟨pre, body, CLOSE2, post, Or.inr rfl, ?_, ?_⟩
      · have ha := splitFirst_append h1
        have hb := splitFirst_append h2
        rw [hb] at ha
        simpa [List.append_assoc] using ha
      · rw [← hr]
        simp [repBlock, List.append_assoc]

theorem c8_witness :
    ∃ pre body close post, (close = CLOSE1 ∨ close = CLOSE2) ∧
      OPEN ++ str "\n  '9': '/old'\n" ++ CLOSE1 = pre ++ OPEN ++ body ++ close ++ post ∧
      OPEN ++ nl ++ str "  '1': '/new'" ++ nl ++ CLOSE1 =
        pre ++ OPEN ++ nl ++ str "  '1': '/new'" ++ nl ++ CLOSE1 ++ post :=
  c8_frame (OPEN ++ str "\n  '9': '/old'\n" ++ CLOSE1) (str "  '1': '/new'")
    (OPEN ++ nl ++ str "  '1': '/new'" ++ nl ++ CLOSE1) (by rfl) (by rfl)

end Zendesk
